import Mathlib

/-!
Formal model of the run-detail page logic of the Sentric dashboard
(`dashboard/frontend/src/app/(dashboard)/projects/[projectId]/runs/[id]/page.tsx`,
duplicated verbatim in the unnamed frontend variant).

The model covers:
* the Event / StepGroup / Finding / Run data shapes declared at the top of the page;
* the step reconstruction function `groupEventsByStep`;
* the replay URL constructor `getLaminarUrl` (with `Number.prototype.toFixed(1)`
  modelled on exact rationals);
* the per-step replay control selection performed by the JSX
  (`step.videoTimestamp !== undefined && (status terminal) && (laminar_trace_id ? link : video_path ? button : null)`);
* the run client state updates performed by `fetchRun`, the WebSocket `onmessage`
  handler, the mount effect and the 2-second poll effect, as an explicit
  event-driven transition system (one atomic state update per JS event-loop turn,
  with a counter of dispatched-but-unresolved `fetchRun` calls).

JavaScript truthiness is modelled explicitly: `x || d` on an optional number is
`jsOrNum` (both `undefined` and `0` fall back to `d`), and on an optional string is
`jsOrStr` (both `undefined` and `""` fall back to `d`).  The JS `Map` keyed by step
number is modelled as an insertion-ordered association list, `Array.from(map.values())`
as `List.map Prod.snd`, and `.sort((a, b) => a.stepNumber - b.stepNumber)` as
insertion sort by `stepNumber` (the keys are pairwise distinct, so every comparison
sort produces the same, unique, ascending arrangement).  `payload` is an open
`Record<string, unknown>` in the source; we model exactly the fields the page reads
(`step_number`, `evaluation`, `memory`, `next_goal`, `content`).  Video timestamps
(seconds) are modelled as exact rationals.
-/

namespace Sentric

/-- The event type union of the page's `Event` interface.  `reasoning` is the
legacy untyped reasoning shape handled by the final `else` branch of
`groupEventsByStep`. -/
inductive EventType where
  | action
  | reasoning
  | step_start
  | step_reasoning
deriving DecidableEq

/-- The payload fields read by the page.  All are optional, mirroring the open
`Record<string, unknown>` payload. -/
structure Payload where
  step_number : Option Nat
  evaluation : Option String
  memory : Option String
  next_goal : Option String
  content : Option String
deriving DecidableEq

/-- One run event, as in the page's `Event` interface. -/
structure Event where
  type : EventType
  payload : Payload
  timestamp : String
  video_timestamp : Option ℚ
deriving DecidableEq

/-- The optional reasoning summary of a `StepGroup` (`evaluation`, `memory`,
`next_goal`, each possibly `undefined`). -/
structure Reasoning where
  evaluation : Option String
  memory : Option String
  next_goal : Option String
deriving DecidableEq

/-- A reconstructed step, as in the page's `StepGroup` interface. -/
structure StepGroup where
  stepNumber : Nat
  reasoning : Option Reasoning
  actions : List Event
  timestamp : String
  videoTimestamp : Option ℚ
deriving DecidableEq

/-- One security finding, as in the page's `Finding` interface (severity is one of
"low" | "medium" | "high" | "critical"; evidence entries are opaque and modelled as
strings). -/
structure Finding where
  severity : String
  category : String
  description : String
  evidence : List String
deriving DecidableEq

/-- One run, as in the page's `Run` interface. -/
structure Run where
  id : String
  project_id : String
  name : Option String
  task : Option String
  status : String
  start_time : String
  end_time : Option String
  events : List Event
  findings : List Finding
  video_path : Option String
  video_start_time : Option String
  laminar_trace_id : Option String
deriving DecidableEq

/-- JS `o || d` on an optional number: `undefined` and `0` are falsy. -/
def jsOrNum (o : Option Nat) (d : Nat) : Nat :=
  match o with
  | some n => if n = 0 then d else n
  | none => d

/-- JS `o || d` on an optional string: `undefined` and `""` are falsy. -/
def jsOrStr (o : Option String) (d : String) : String :=
  match o with
  | some s => if s.isEmpty then d else s
  | none => d

/-- JS falsiness of an optional string (`!x`): true for `undefined` and `""`. -/
def strFalsy (o : Option String) : Bool :=
  match o with
  | none => true
  | some s => s.isEmpty

/-- JS truthiness of an optional string (ternary guard `x ? _ : _`). -/
def strTruthy (o : Option String) : Bool :=
  !(strFalsy o)

/-- Value of an optional string at a use site where the source has already
established truthiness (the default is never reached there). -/
def optStr (o : Option String) : String :=
  o.getD ""

/-- Model of `Map.get` on the insertion-ordered association list modelling the JS `Map`. -/
def findStep? : List (Nat × StepGroup) → Nat → Option StepGroup
  | [], _ => none
  | (k1, g1) :: rest, k => if k1 = k then some g1 else findStep? rest k

/-- Model of `Map.set`: replace in place if the key exists, else append (JS `Map`
preserves insertion order). -/
def setStep : List (Nat × StepGroup) → Nat → StepGroup → List (Nat × StepGroup)
  | [], k, g => [(k, g)]
  | (k1, g1) :: rest, k, g =>
      if k1 = k then (k, g) :: rest else (k1, g1) :: setStep rest k g

/-- In-place mutation of the group returned by `Map.get` (a no-op if the key is
absent; the source only mutates after ensuring presence). -/
def modifyStep : List (Nat × StepGroup) → Nat → (StepGroup → StepGroup) → List (Nat × StepGroup)
  | [], _, _ => []
  | (k1, g1) :: rest, k, f =>
      if k1 = k then (k1, f g1) :: rest else (k1, g1) :: modifyStep rest k f

/-- The fresh `StepGroup` literal created by every `if (!steps.has(...)) steps.set(...)`
block of `groupEventsByStep`. -/
def freshGroup (stepNum : Nat) (e : Event) : StepGroup :=
  ⟨stepNum, none, [], e.timestamp, e.video_timestamp⟩

/-- The `if (!steps.has(stepNum)) steps.set(stepNum, {...})` pattern. -/
def ensureStep (m : List (Nat × StepGroup)) (k : Nat) (e : Event) : List (Nat × StepGroup) :=
  match findStep? m k with
  | some _ => m
  | none => setStep m k (freshGroup k e)

/-- Model of `if (event.video_timestamp !== undefined && step.videoTimestamp ===
undefined) step.videoTimestamp = event.video_timestamp`. -/
def backfillVideo (e : Event) (g : StepGroup) : StepGroup :=
  match e.video_timestamp, g.videoTimestamp with
  | some vt, none => { g with videoTimestamp := some vt }
  | _, _ => g

/-- The loop state of `groupEventsByStep`: the `steps` map and the running
`currentStep` counter. -/
structure GroupState where
  steps : List (Nat × StepGroup)
  currentStep : Nat
deriving DecidableEq

/-- Initial loop state: empty map, `currentStep = 0`. -/
def initState : GroupState :=
  ⟨[], 0⟩

/-- One iteration of the `for (const event of events)` loop of `groupEventsByStep`,
branch by branch.

* `step_start`: `stepNum = payload.step_number || 0`; set `currentStep`; ensure the
  group exists (nothing else is updated on an existing group).
* `step_reasoning`: `stepNum = payload.step_number || currentStep`; set `currentStep`;
  ensure the group; assign `step.reasoning = { evaluation, memory, next_goal }`
  (a wholesale replacement — fields absent from the payload become `undefined`);
  backfill `timestamp` only if falsy; backfill `videoTimestamp` only if unset.
* `action`: `stepNum = payload.step_number || currentStep`; set `currentStep`;
  ensure the group; push the event onto `actions`; backfill `videoTimestamp`.
* legacy `reasoning`: attach to `currentStep`; ensure the group; create an empty
  reasoning object if none; set `memory` from `payload.content || ""` only when the
  content is truthy and the current `memory` is falsy; backfill `videoTimestamp`. -/
def processEvent (s : GroupState) (e : Event) : GroupState :=
  match e.type with
  | EventType.step_start =>
      let stepNum := jsOrNum e.payload.step_number 0
      ⟨ensureStep s.steps stepNum e, stepNum⟩
  | EventType.step_reasoning =>
      let stepNum := jsOrNum e.payload.step_number s.currentStep
      let m := ensureStep s.steps stepNum e
      let m2 := modifyStep m stepNum (fun g =>
        let g1 := { g with
          reasoning := some ⟨e.payload.evaluation, e.payload.memory, e.payload.next_goal⟩ }
        let g2 := if g1.timestamp.isEmpty then { g1 with timestamp := e.timestamp } else g1
        backfillVideo e g2)
      ⟨m2, stepNum⟩
  | EventType.action =>
      let stepNum := jsOrNum e.payload.step_number s.currentStep
      let m := ensureStep s.steps stepNum e
      let m2 := modifyStep m stepNum (fun g =>
        backfillVideo e { g with actions := g.actions ++ [e] })
      ⟨m2, stepNum⟩
  | EventType.reasoning =>
      let m := ensureStep s.steps s.currentStep e
      let m2 := modifyStep m s.currentStep (fun g =>
        let r := match g.reasoning with
          | some r0 => r0
          | none => ⟨none, none, none⟩
        let content := jsOrStr e.payload.content ""
        let r2 := if ¬content.isEmpty ∧ strFalsy r.memory then { r with memory := some content }
          else r
        backfillVideo e { g with reasoning := some r2 })
      ⟨m2, s.currentStep⟩

/-- The comparison relation of the final
`.sort((a, b) => a.stepNumber - b.stepNumber)`. -/
def stepLE (a b : StepGroup) : Prop :=
  a.stepNumber ≤ b.stepNumber

instance stepLE_decidable : DecidableRel stepLE :=
  fun a b => inferInstanceAs (Decidable (a.stepNumber ≤ b.stepNumber))

instance stepLE_total : IsTotal StepGroup stepLE :=
  ⟨fun a b => Nat.le_total a.stepNumber b.stepNumber⟩

instance stepLE_trans : IsTrans StepGroup stepLE :=
  ⟨fun _ _ _ h1 h2 => Nat.le_trans h1 h2⟩

/-- The step reconstructor `groupEventsByStep`: fold the loop body over the events,
take `Array.from(steps.values())` (insertion order), and sort ascending by
`stepNumber`. -/
def groupEventsByStep (events : List Event) : List StepGroup :=
  List.insertionSort stepLE (((events.foldl processEvent initState).steps).map Prod.snd)

/-- Model of `Number.prototype.toFixed(1)` on an exact rational: round `q * 10`
half-up to an integer (`Int.fdiv (q.num * 20 + q.den) (q.den * 2)` is exactly
`⌊q * 10 + 1/2⌋`) and print it with one decimal digit.  Video timestamps are
nonnegative seconds. -/
def toFixed1 (q : ℚ) : String :=
  let n : Int := Int.fdiv (q.num * 20 + q.den) (q.den * 2)
  (if n < 0 then "-" else "") ++ toString (n.natAbs / 10) ++ "." ++ toString (n.natAbs % 10)

/-- Model of `getLaminarUrl(traceId, timestamp?)`: the base URL is
`process.env.NEXT_PUBLIC_LAMINAR_URL || "https://laminar.sh"` (`envBase` models the
environment variable); the trace id is appended to the fixed `/shared/traces/` path;
when a timestamp is given, `?t={timestamp.toFixed(1)}` is appended. -/
def getLaminarUrl (envBase : Option String) (traceId : String) (timestamp : Option ℚ) : String :=
  let baseUrl := jsOrStr envBase "https://laminar.sh"
  let url := baseUrl ++ "/shared/traces/" ++ traceId
  match timestamp with
  | some t => url ++ "?t=" ++ toFixed1 t
  | none => url

/-- The replay control the timeline renders for one step: an external Laminar link,
a local video-seek button, or nothing. -/
inductive ReplayChoice where
  | laminarLink (url : String)
  | videoSeek (t : ℚ)
  | noControl
deriving DecidableEq

/-- The per-step replay control selection of the timeline JSX:
`step.videoTimestamp !== undefined && run && (run.status === "completed" ||
run.status === "failed") && (run.laminar_trace_id ? <a href={getLaminarUrl(...)}> :
run.video_path ? <button onClick={seekToTimestamp(...)}> : null)`. -/
def replayControl (r : Run) (g : StepGroup) (envBase : Option String) : ReplayChoice :=
  match g.videoTimestamp with
  | none => ReplayChoice.noControl
  | some vt =>
      if r.status = "completed" ∨ r.status = "failed" then
        if strTruthy r.laminar_trace_id then
          ReplayChoice.laminarLink (getLaminarUrl envBase (optStr r.laminar_trace_id) (some vt))
        else if strTruthy r.video_path then
          ReplayChoice.videoSeek vt
        else ReplayChoice.noControl
      else ReplayChoice.noControl

/-- The possible outcomes of one `fetchRun()` call, as handled by its
`try / if (res.ok) / else if (res.status === 401) / catch / finally` structure. -/
inductive FetchOutcome where
  | success (r : Run)
  | unauthorized
  | httpFailure
  | networkFailure
deriving DecidableEq

/-- The in-memory state of the run client: the `run` and `loading` React states, the
pending `router.push` target, whether the mount effect has run, and the number of
dispatched `fetchRun()` calls whose responses have not yet been applied. -/
structure RunClient where
  run : Option Run
  loading : Bool
  redirect : Option String
  mounted : Bool
  pendingFetches : Nat
deriving DecidableEq

/-- Client state before the mount effect: no run, `loading = true`. -/
def clientInit : RunClient :=
  ⟨none, true, none, false, 0⟩

/-- The state update a resolving `fetchRun()` performs:
`res.ok` → `setRun(await res.json())` (unconditional replacement);
`401` → `router.push("/auth")`; any other non-ok status → nothing; a thrown
network/parse error → caught and only logged; `finally` → `setLoading(false)` in
every case.  The function is total: no outcome raises. -/
def applyFetch (s : RunClient) (o : FetchOutcome) : RunClient :=
  match o with
  | FetchOutcome.success r => { s with run := some r, loading := false }
  | FetchOutcome.unauthorized => { s with redirect := some "/auth", loading := false }
  | FetchOutcome.httpFailure => { s with loading := false }
  | FetchOutcome.networkFailure => { s with loading := false }

/-- One atomic event-loop turn of the run client:
the mount effect dispatching the initial `fetchRun()`, a 2-second poll tick
(scheduled only while the fetched status is "running"), a dispatched fetch
resolving with some outcome, a parsed WebSocket message (append-only), or a
malformed WebSocket message (dropped). -/
inductive ClientAction where
  | mountFetch
  | pollTick
  | fetchReturn (o : FetchOutcome)
  | wsMessage (e : Event)
  | wsMalformed
deriving DecidableEq

/-- The transition function of the run client.  `none` means the action cannot
occur in this state: the mount effect runs once; the poll interval exists only
while `run.status === "running"`; a fetch can resolve only if one is in flight.
`ws.onmessage` appends the event to `run.events` (a no-op before hydration);
malformed messages leave the state unchanged. -/
def stepClient (s : RunClient) (a : ClientAction) : Option RunClient :=
  match a with
  | ClientAction.mountFetch =>
      if s.mounted then none
      else some { s with mounted := true, pendingFetches := s.pendingFetches + 1 }
  | ClientAction.pollTick =>
      match s.run with
      | some r =>
          if r.status = "running" then some { s with pendingFetches := s.pendingFetches + 1 }
          else none
      | none => none
  | ClientAction.fetchReturn o =>
      match s.pendingFetches with
      | 0 => none
      | n + 1 => some (applyFetch { s with pendingFetches := n } o)
  | ClientAction.wsMessage e =>
      some { s with run := s.run.map (fun r => { r with events := r.events ++ [e] }) }
  | ClientAction.wsMalformed => some s

/-- Run a sequence of event-loop turns from a state; `none` if some turn is not
enabled. -/
def runActions (s : RunClient) : List ClientAction → Option RunClient
  | [] => some s
  | a :: rest => (stepClient s a).bind (fun s2 => runActions s2 rest)

/-- The status the client currently displays (`none` before hydration). -/
def observedStatus (s : RunClient) : Option String :=
  s.run.map Run.status

/-- The displayed status after running a sequence of turns from the pristine
client state. -/
def traceStatus (acts : List ClientAction) : Option String :=
  (runActions clientInit acts).bind observedStatus

/-- A minimal run record with the given status (no recording fields, no events). -/
def mkRun (status : String) : Run :=
  ⟨"run-1", "proj-1", none, none, status, "2024-01-01T00:00:00Z", none, [], [], none, none, none⟩

/-- A `step_start` event for step 1 (the C1 scenario's first event). -/
def exStepStart1 : Event :=
  ⟨EventType.step_start, ⟨some 1, none, none, none, none⟩, "t1", none⟩

/-- A late `step_reasoning` event whose payload explicitly declares
`step_number: 0` (the C1 scenario's second event). -/
def exLateReason0 : Event :=
  ⟨EventType.step_reasoning, ⟨some 0, none, some "m0", none, none⟩, "t2", none⟩

/-- A `step_reasoning` event for step 1 carrying only `memory` (C2 scenario). -/
def exReasonMem : Event :=
  ⟨EventType.step_reasoning, ⟨some 1, none, some "m1", none, none⟩, "t1", none⟩

/-- A second `step_reasoning` event for step 1 carrying only `evaluation`
(C2 scenario). -/
def exReasonEval : Event :=
  ⟨EventType.step_reasoning, ⟨some 1, some "e2", none, none, none⟩, "t2", none⟩

/-- A legacy untyped reasoning event (C3 witness). -/
def exLegacy : Event :=
  ⟨EventType.reasoning, ⟨none, none, none, none, some "thinking"⟩, "t0", none⟩

/-- An action event explicitly assigned to step 1 (C4/C5 witnesses). -/
def exAction1 : Event :=
  ⟨EventType.action, ⟨some 1, none, none, none, none⟩, "ta1", none⟩

/-- An action event explicitly assigned to step 2, arriving first (C4 witness). -/
def exAction2 : Event :=
  ⟨EventType.action, ⟨some 2, none, none, none, none⟩, "ta2", none⟩

/-- The C6 scenario: mount fetch returns a running run, two polls are dispatched,
and the later-dispatched poll's response (completed) is applied before the
earlier-dispatched poll's stale response. -/
def exTerminalTrace : List ClientAction :=
  [ClientAction.mountFetch,
   ClientAction.fetchReturn (FetchOutcome.success (mkRun "running")),
   ClientAction.pollTick,
   ClientAction.pollTick,
   ClientAction.fetchReturn (FetchOutcome.success (mkRun "completed"))]

/-- A hydrated-terminal client state with no fetch in flight (C6 witness). -/
def exTerminalClient : RunClient :=
  ⟨some (mkRun "completed"), false, none, true, 0⟩

/-- `exTerminalClient` after one parsed WebSocket message `exLegacy` (C6 witness). -/
def exTerminalClient2 : RunClient :=
  ⟨some { (mkRun "completed") with events := [exLegacy] }, false, none, true, 0⟩

/-- Client state right after the mount effect dispatched the initial fetch
(C9 scenario). -/
def exMountedClient : RunClient :=
  ⟨none, true, none, true, 1⟩

/-- A terminal run carrying both a Laminar trace id and a local video path
(C7 witness). -/
def exRunBoth : Run :=
  { (mkRun "completed") with
    video_path := some "videos/run-1.mp4"
    laminar_trace_id := some "tr" }

/-- A step group with a defined video timestamp (C7 witness). -/
def exGroupVT : StepGroup :=
  ⟨1, none, [], "t1", some 5⟩

/-- Invariant of the `steps` map during the loop of `groupEventsByStep`, relative to
the list of already-processed events: keys are pairwise distinct, every group
records its own key as `stepNumber`, and every `actions` list is an order-preserving
selection (sublist) of the processed events consisting of `action` events only. -/
def GoodSteps (processed : List Event) (m : List (Nat × StepGroup)) : Prop :=
  (m.map Prod.fst).Nodup ∧
  ∀ kg ∈ m, kg.2.stepNumber = kg.1 ∧
    List.Sublist kg.2.actions processed ∧
    ∀ e ∈ kg.2.actions, e.type = EventType.action

/-- Invariant of the loop state while only legacy (untyped reasoning) events have
been processed: `currentStep` is still 0 and the map holds exactly one group, for
step 0, with no actions. -/
def LegacyInv (s : GroupState) : Prop :=
  s.currentStep = 0 ∧ ∃ g, s.steps = [(0, g)] ∧ g.stepNumber = 0 ∧ g.actions = []

theorem findStep?_setStep_self (m : List (Nat × StepGroup)) (k : Nat) (g : StepGroup) :
    findStep? (setStep m k g) k = some g := by
  induction m with
  | nil => simp [setStep, findStep?]
  | cons hd rest ih =>
      obtain ⟨k1, g1⟩ := hd
      by_cases h : k1 = k
      · simp [setStep, h, findStep?]
      · simp [setStep, h, findStep?, ih]

theorem findStep?_setStep_ne (m : List (Nat × StepGroup)) (k k2 : Nat) (g : StepGroup)
    (h : k2 ≠ k) : findStep? (setStep m k g) k2 = findStep? m k2 := by
  have hne : ¬k = k2 := fun he => h he.symm
  induction m with
  | nil => simp [setStep, findStep?, hne]
  | cons hd rest ih =>
      obtain ⟨k1, g1⟩ := hd
      by_cases hk : k1 = k
      · subst hk
        simp [setStep, findStep?, hne]
      · simp [setStep, hk, findStep?, ih]

theorem findStep?_modifyStep_self (m : List (Nat × StepGroup)) (k : Nat)
    (f : StepGroup → StepGroup) :
    findStep? (modifyStep m k f) k = (findStep? m k).map f := by
  induction m with
  | nil => simp [modifyStep, findStep?]
  | cons hd rest ih =>
      obtain ⟨k1, g1⟩ := hd
      by_cases h : k1 = k
      · simp [modifyStep, h, findStep?]
      · simp [modifyStep, h, findStep?, ih]

theorem findStep?_modifyStep_ne (m : List (Nat × StepGroup)) (k k2 : Nat)
    (f : StepGroup → StepGroup) (h : k2 ≠ k) :
    findStep? (modifyStep m k f) k2 = findStep? m k2 := by
  have hne : ¬k = k2 := fun he => h he.symm
  induction m with
  | nil => simp [modifyStep]
  | cons hd rest ih =>
      obtain ⟨k1, g1⟩ := hd
      by_cases hk : k1 = k
      · subst hk
        simp [modifyStep, findStep?, hne]
      · simp [modifyStep, hk, findStep?, ih]

theorem modifyStep_keys (m : List (Nat × StepGroup)) (k : Nat) (f : StepGroup → StepGroup) :
    (modifyStep m k f).map Prod.fst = m.map Prod.fst := by
  induction m with
  | nil => simp [modifyStep]
  | cons hd rest ih =>
      obtain ⟨k1, g1⟩ := hd
      by_cases h : k1 = k
      · simp [modifyStep, h]
      · simp [modifyStep, h, ih]

theorem setStep_keys_none (m : List (Nat × StepGroup)) (k : Nat) (g : StepGroup)
    (h : findStep? m k = none) :
    (setStep m k g).map Prod.fst = m.map Prod.fst ++ [k] := by
  induction m with
  | nil => simp [setStep]
  | cons hd rest ih =>
      obtain ⟨k1, g1⟩ := hd
      by_cases hk : k1 = k
      · simp [findStep?, hk] at h
      · simp [findStep?, hk] at h
        simp [setStep, hk, ih h]

theorem findStep?_eq_none (m : List (Nat × StepGroup)) (k : Nat) :
    findStep? m k = none ↔ k ∉ m.map Prod.fst := by
  induction m with
  | nil => simp [findStep?]
  | cons hd rest ih =>
      obtain ⟨k1, g1⟩ := hd
      by_cases hk : k1 = k
      · simp [findStep?, hk]
      · have hk2 : ¬k = k1 := fun he => hk he.symm
        simp only [findStep?, List.map_cons, List.mem_cons]
        rw [if_neg hk, ih]
        simp [hk2]

theorem mem_setStep (m : List (Nat × StepGroup)) (k : Nat) (g : StepGroup)
    (kg : Nat × StepGroup) (h : kg ∈ setStep m k g) : kg ∈ m ∨ kg = (k, g) := by
  induction m with
  | nil => simpa [setStep] using h
  | cons hd rest ih =>
      obtain ⟨k1, g1⟩ := hd
      by_cases hk : k1 = k
      · simp [setStep, hk] at h
        rcases h with h | h
        · exact Or.inr h
        · exact Or.inl (List.mem_cons_of_mem _ h)
      · simp [setStep, hk] at h
        rcases h with h | h
        · exact Or.inl (by simp [h])
        · rcases ih h with h2 | h2
          · exact Or.inl (List.mem_cons_of_mem _ h2)
          · exact Or.inr h2

theorem mem_modifyStep (m : List (Nat × StepGroup)) (k : Nat) (f : StepGroup → StepGroup)
    (kg : Nat × StepGroup) (h : kg ∈ modifyStep m k f) :
    kg ∈ m ∨ ∃ g, (k, g) ∈ m ∧ kg = (k, f g) := by
  induction m with
  | nil => simp [modifyStep] at h
  | cons hd rest ih =>
      obtain ⟨k1, g1⟩ := hd
      by_cases hk : k1 = k
      · subst hk
        simp [modifyStep] at h
        rcases h with h | h
        · exact Or.inr ⟨g1, by simp, h⟩
        · exact Or.inl (List.mem_cons_of_mem _ h)
      · simp [modifyStep, hk] at h
        rcases h with h | h
        · exact Or.inl (by simp [h])
        · rcases ih h with h2 | ⟨g2, hg2, he2⟩
          · exact Or.inl (List.mem_cons_of_mem _ h2)
          · exact Or.inr ⟨g2, List.mem_cons_of_mem _ hg2, he2⟩

theorem findStep?_ensureStep_self (m : List (Nat × StepGroup)) (k : Nat) (e : Event) :
    findStep? (ensureStep m k e) k = some ((findStep? m k).getD (freshGroup k e)) := by
  unfold ensureStep
  cases h : findStep? m k with
  | some g => simp [h]
  | none => simp [findStep?_setStep_self]

theorem findStep?_ensureStep_ne (m : List (Nat × StepGroup)) (k k2 : Nat) (e : Event)
    (h : k2 ≠ k) : findStep? (ensureStep m k e) k2 = findStep? m k2 := by
  unfold ensureStep
  cases hf : findStep? m k with
  | some g => rfl
  | none => exact findStep?_setStep_ne m k k2 _ h

theorem mem_ensureStep (m : List (Nat × StepGroup)) (k : Nat) (e : Event)
    (kg : Nat × StepGroup) (h : kg ∈ ensureStep m k e) : kg ∈ m ∨ kg = (k, freshGroup k e) := by
  unfold ensureStep at h
  cases hf : findStep? m k with
  | some g => rw [hf] at h; exact Or.inl h
  | none => rw [hf] at h; exact mem_setStep m k _ kg h

theorem backfillVideo_stepNumber (e : Event) (g : StepGroup) :
    (backfillVideo e g).stepNumber = g.stepNumber := by
  cases hv : e.video_timestamp <;> cases hg : g.videoTimestamp <;> simp [backfillVideo, hv, hg]

theorem backfillVideo_actions (e : Event) (g : StepGroup) :
    (backfillVideo e g).actions = g.actions := by
  cases hv : e.video_timestamp <;> cases hg : g.videoTimestamp <;> simp [backfillVideo, hv, hg]

theorem backfillVideo_reasoning (e : Event) (g : StepGroup) :
    (backfillVideo e g).reasoning = g.reasoning := by
  cases hv : e.video_timestamp <;> cases hg : g.videoTimestamp <;> simp [backfillVideo, hv, hg]

theorem goodSteps_weaken (pre : List Event) (e : Event) (m : List (Nat × StepGroup))
    (h : GoodSteps pre m) : GoodSteps (pre ++ [e]) m := by
  refine ⟨h.1, fun kg hm => ?_⟩
  obtain ⟨h1, h2, h3⟩ := h.2 kg hm
  exact ⟨h1, h2.trans (List.sublist_append_left pre [e]), h3⟩

theorem goodSteps_ensure (pre : List Event) (m : List (Nat × StepGroup)) (k : Nat) (e : Event)
    (h : GoodSteps pre m) : GoodSteps pre (ensureStep m k e) := by
  unfold ensureStep
  cases hf : findStep? m k with
  | some g => exact h
  | none =>
      constructor
      · rw [setStep_keys_none m k _ hf]
        have hk : k ∉ m.map Prod.fst := (findStep?_eq_none m k).mp hf
        rw [(List.perm_append_singleton k (m.map Prod.fst)).nodup_iff]
        exact List.nodup_cons.mpr ⟨hk, h.1⟩
      · intro kg hm
        rcases mem_setStep m k _ kg hm with hin | heq
        · exact h.2 kg hin
        · subst heq
          exact ⟨rfl, List.nil_sublist pre, by intro x hx; cases hx⟩

theorem goodSteps_modify_keep (pre : List Event) (m : List (Nat × StepGroup)) (k : Nat)
    (f : StepGroup → StepGroup)
    (hf : ∀ g, (f g).stepNumber = g.stepNumber ∧ (f g).actions = g.actions)
    (h : GoodSteps pre m) : GoodSteps pre (modifyStep m k f) := by
  constructor
  · rw [modifyStep_keys]; exact h.1
  · intro kg hm
    rcases mem_modifyStep m k f kg hm with hin | ⟨g, hg, heq⟩
    · exact h.2 kg hin
    · subst heq
      obtain ⟨h1, h2, h3⟩ := h.2 (k, g) hg
      refine ⟨?_, ?_, ?_⟩
      · show (f g).stepNumber = k
        rw [(hf g).1]; exact h1
      · show List.Sublist (f g).actions pre
        rw [(hf g).2]; exact h2
      · show ∀ x ∈ (f g).actions, x.type = EventType.action
        rw [(hf g).2]; exact h3

theorem goodSteps_modify_push (pre : List Event) (m : List (Nat × StepGroup)) (k : Nat)
    (e : Event) (he : e.type = EventType.action) (h : GoodSteps pre m) :
    GoodSteps (pre ++ [e])
      (modifyStep m k (fun g => backfillVideo e { g with actions := g.actions ++ [e] })) := by
  constructor
  · rw [modifyStep_keys]; exact h.1
  · intro kg hm
    rcases mem_modifyStep m k _ kg hm with hin | ⟨g, hg, heq⟩
    · obtain ⟨h1, h2, h3⟩ := h.2 kg hin
      exact ⟨h1, h2.trans (List.sublist_append_left pre [e]), h3⟩
    · subst heq
      obtain ⟨h1, h2, h3⟩ := h.2 (k, g) hg
      refine ⟨?_, ?_, ?_⟩
      · show (backfillVideo e { g with actions := g.actions ++ [e] }).stepNumber = k
        rw [backfillVideo_stepNumber]; exact h1
      · show List.Sublist (backfillVideo e { g with actions := g.actions ++ [e] }).actions _
        rw [backfillVideo_actions]
        exact h2.append_right [e]
      · show ∀ x ∈ (backfillVideo e { g with actions := g.actions ++ [e] }).actions, _
        rw [backfillVideo_actions]
        intro x hx
        rcases List.mem_append.mp hx with hx1 | hx2
        · exact h3 x hx1
        · rw [List.mem_singleton.mp hx2]; exact he

theorem goodSteps_process (pre : List Event) (s : GroupState) (e : Event)
    (h : GoodSteps pre s.steps) : GoodSteps (pre ++ [e]) (processEvent s e).steps := by
  cases he : e.type with
  | step_start =>
      simp only [processEvent, he]
      exact goodSteps_weaken pre e _ (goodSteps_ensure pre s.steps _ e h)
  | step_reasoning =>
      simp only [processEvent, he]
      refine goodSteps_weaken pre e _ ?_
      refine goodSteps_modify_keep pre _ _ _ ?_ (goodSteps_ensure pre s.steps _ e h)
      intro g
      constructor
      · rw [backfillVideo_stepNumber]; split <;> rfl
      · rw [backfillVideo_actions]; split <;> rfl
  | action =>
      simp only [processEvent, he]
      exact goodSteps_modify_push pre _ _ e he (goodSteps_ensure pre s.steps _ e h)
  | reasoning =>
      simp only [processEvent, he]
      refine goodSteps_weaken pre e _ ?_
      refine goodSteps_modify_keep pre _ _ _ ?_ (goodSteps_ensure pre s.steps _ e h)
      intro g
      constructor
      · rw [backfillVideo_stepNumber]
      · rw [backfillVideo_actions]

theorem goodSteps_foldl (es : List Event) :
    ∀ (pre : List Event) (s : GroupState), GoodSteps pre s.steps →
      GoodSteps (pre ++ es) ((es.foldl processEvent s).steps) := by
  induction es with
  | nil => intro pre s h; simpa using h
  | cons e rest ih =>
      intro pre s h
      have h3 := ih (pre ++ [e]) (processEvent s e) (goodSteps_process pre s e h)
      simpa [List.append_assoc] using h3

theorem groupEventsByStep_facts (es : List Event) :
    List.Sorted stepLE (groupEventsByStep es) ∧
    List.Pairwise (fun a b => a.stepNumber ≠ b.stepNumber) (groupEventsByStep es) ∧
    ∀ g ∈ groupEventsByStep es,
      List.Sublist g.actions es ∧ ∀ e ∈ g.actions, e.type = EventType.action := by
  have hinit : GoodSteps [] initState.steps := by
    refine ⟨by simp [initState], ?_⟩
    intro kg hm
    simp [initState] at hm
  have hg := goodSteps_foldl es [] initState hinit
  rw [List.nil_append] at hg
  refine ⟨List.sorted_insertionSort stepLE _, ?_, ?_⟩
  · have hmap : ((es.foldl processEvent initState).steps).map (fun kg => kg.2.stepNumber)
        = ((es.foldl processEvent initState).steps).map Prod.fst :=
      List.map_congr_left (fun kg hk => (hg.2 kg hk).1)
    have hvals : ((((es.foldl processEvent initState).steps).map Prod.snd).map
        StepGroup.stepNumber).Nodup := by
      rw [List.map_map]
      exact hmap ▸ hg.1
    have hperm := (List.perm_insertionSort stepLE
      (((es.foldl processEvent initState).steps).map Prod.snd)).map StepGroup.stepNumber
    have hout : ((groupEventsByStep es).map StepGroup.stepNumber).Nodup := by
      rw [groupEventsByStep]
      exact hperm.nodup_iff.mpr hvals
    exact List.pairwise_map.mp hout
  · intro g hgmem
    have hmem : g ∈ ((es.foldl processEvent initState).steps).map Prod.snd := by
      rw [groupEventsByStep] at hgmem
      exact (List.mem_insertionSort stepLE).mp hgmem
    rcases List.mem_map.mp hmem with ⟨kg, hkg, hgeq⟩
    subst hgeq
    exact ⟨(hg.2 kg hkg).2.1, (hg.2 kg hkg).2.2⟩

theorem modifyStep_singleton (k : Nat) (g : StepGroup) (f : StepGroup → StepGroup) :
    modifyStep [(k, g)] k f = [(k, f g)] := by
  simp [modifyStep]

theorem legacyInv_process (s : GroupState) (e : Event) (he : e.type = EventType.reasoning)
    (h : LegacyInv s) : LegacyInv (processEvent s e) := by
  obtain ⟨hc, g, hs, hn, ha⟩ := h
  have h1 : ensureStep s.steps 0 e = [(0, g)] := by
    rw [hs]
    simp [ensureStep, findStep?]
  constructor
  · simp only [processEvent, he]
    exact hc
  · simp only [processEvent, he, hc]
    rw [h1, modifyStep_singleton]
    refine ⟨_, rfl, ?_, ?_⟩
    · simp only [backfillVideo_stepNumber]
      exact hn
    · simp only [backfillVideo_actions]
      exact ha

theorem legacyInv_first (e : Event) (he : e.type = EventType.reasoning) :
    LegacyInv (processEvent initState e) := by
  have h1 : ensureStep initState.steps initState.currentStep e = [(0, freshGroup 0 e)] := by
    simp [initState, ensureStep, findStep?, setStep]
  constructor
  · simp only [processEvent, he]
    rfl
  · simp only [processEvent, he, h1, modifyStep_singleton, initState]
    refine ⟨_, rfl, ?_, ?_⟩
    · simp only [backfillVideo_stepNumber]
      rfl
    · simp only [backfillVideo_actions]
      rfl

theorem legacyInv_foldl (es : List Event) :
    ∀ s : GroupState, (∀ e ∈ es, e.type = EventType.reasoning) → LegacyInv s →
      LegacyInv (es.foldl processEvent s) := by
  induction es with
  | nil => intro s _ h; exact h
  | cons e rest ih =>
      intro s hall h
      simp only [List.foldl_cons]
      exact ih (processEvent s e) (fun x hx => hall x (List.mem_cons_of_mem e hx))
        (legacyInv_process s e (hall e (List.mem_cons_self e rest)) h)

/-- Claim C1 (counterexample): in `groupEventsByStep`, after a `step_start` for step 1,
a late `step_reasoning` event whose payload explicitly declares `step_number: 0` is
NOT attached to StepGroup 0: the source computes
`const stepNum = payload.step_number || currentStep`, and `0` is falsy in JS, so the
explicit `0` falls back to `currentStep = 1`.  The whole output is a single group
with stepNumber 1 carrying that reasoning; no group with stepNumber 0 exists. -/
theorem c1_late_step_reasoning_counterexample :
    groupEventsByStep [exStepStart1, exLateReason0] =
      [⟨1, some ⟨none, some "m0", none⟩, [], "t1", none⟩] ∧
    (groupEventsByStep [exStepStart1, exLateReason0]).map StepGroup.stepNumber = [1] ∧
    ((groupEventsByStep [exStepStart1, exLateReason0]).map StepGroup.stepNumber).contains 0
      = false := by
  decide

/-- Claim C1 (amended): a `step_reasoning` event whose payload declares
`step_number: 0`, arriving while `currentStep` is 1, is attached to StepGroup 1
(the payload value `0` is falsy, so `payload.step_number || currentStep` resolves to
`currentStep`): `currentStep` stays 1, the group at key 1 receives the payload's
reasoning fields, and the map entry for key 0 is untouched. -/
theorem c1_late_step_reasoning_amended (s : GroupState) (p : Payload) (ts : String)
    (vt : Option ℚ) (hc : s.currentStep = 1) (hp : p.step_number = some 0) :
    (processEvent s ⟨EventType.step_reasoning, p, ts, vt⟩).currentStep = 1 ∧
    (findStep? (processEvent s ⟨EventType.step_reasoning, p, ts, vt⟩).steps 1).map
      StepGroup.reasoning = some (some ⟨p.evaluation, p.memory, p.next_goal⟩) ∧
    findStep? (processEvent s ⟨EventType.step_reasoning, p, ts, vt⟩).steps 0 =
      findStep? s.steps 0 := by
  have hstep : jsOrNum p.step_number s.currentStep = 1 := by
    rw [hp, hc]
    rfl
  refine ⟨?_, ?_, ?_⟩
  · simp only [processEvent]
    exact hstep
  · simp only [processEvent, hstep]
    rw [findStep?_modifyStep_self, findStep?_ensureStep_self]
    simp only [Option.map]
    simp only [backfillVideo_reasoning]
    split <;> rfl
  · simp only [processEvent, hstep]
    rw [findStep?_modifyStep_ne _ _ _ _ (by decide), findStep?_ensureStep_ne _ _ _ _ (by decide)]

/-- Claim C1 amended, instantiated: from the empty map with `currentStep = 1`, the
late step-0 reasoning event lands on key 1 and leaves key 0 absent. -/
theorem c1_late_step_reasoning_amended_witness :
    (processEvent ⟨[], 1⟩ ⟨EventType.step_reasoning, ⟨some 0, none, some "m0", none, none⟩,
      "t2", none⟩).currentStep = 1 ∧
    (findStep? (processEvent ⟨[], 1⟩ ⟨EventType.step_reasoning,
      ⟨some 0, none, some "m0", none, none⟩, "t2", none⟩).steps 1).map StepGroup.reasoning =
      some (some ⟨none, some "m0", none⟩) ∧
    findStep? (processEvent ⟨[], 1⟩ ⟨EventType.step_reasoning,
      ⟨some 0, none, some "m0", none, none⟩, "t2", none⟩).steps 0 =
      findStep? ([] : List (Nat × StepGroup)) 0 :=
  c1_late_step_reasoning_amended ⟨[], 1⟩ ⟨some 0, none, some "m0", none, none⟩ "t2" none
    rfl rfl

/-- Claim C2 (counterexample): two `step_reasoning` events for step 1, the first
carrying only `memory = "m1"`, the second carrying only `evaluation = "e2"`.  The
source assigns `step.reasoning = { evaluation, memory, next_goal }` wholesale, so
the second event erases the first event's memory: the final reasoning is
`{evaluation: "e2"}` with `memory` unset, not the partial merge
`{evaluation: "e2", memory: "m1"}` the claim predicts. -/
theorem c2_reasoning_overwrite_counterexample :
    groupEventsByStep [exReasonMem, exReasonEval] =
      [⟨1, some ⟨some "e2", none, none⟩, [], "t1", none⟩] ∧
    (groupEventsByStep [exReasonMem, exReasonEval]).map StepGroup.reasoning ≠
      [some ⟨some "e2", some "m1", none⟩] := by
  decide

/-- Claim C2 (amended): processing a `step_reasoning` event replaces the target
StepGroup's reasoning wholesale with the new payload's three fields — fields present
in the payload overwrite, and fields absent from the payload reset the prior values
to unset. -/
theorem c2_reasoning_overwrite_amended (s : GroupState) (p : Payload) (ts : String)
    (vt : Option ℚ) :
    (findStep? (processEvent s ⟨EventType.step_reasoning, p, ts, vt⟩).steps
      (jsOrNum p.step_number s.currentStep)).map StepGroup.reasoning =
      some (some ⟨p.evaluation, p.memory, p.next_goal⟩) := by
  simp only [processEvent]
  rw [findStep?_modifyStep_self, findStep?_ensureStep_self]
  simp only [Option.map]
  simp only [backfillVideo_reasoning]
  split <;> rfl

/-- Claim C3 (counterexample): the empty event list contains no `step_start`,
`step_reasoning` or `action` event, yet `groupEventsByStep` returns the empty list,
not exactly one StepGroup. -/
theorem c3_no_marker_counterexample :
    groupEventsByStep ([] : List Event) = [] ∧
    (groupEventsByStep ([] : List Event)).length ≠ 1 := by
  decide

/-- Claim C3 (amended): for every NONEMPTY event list containing no `step_start`,
`step_reasoning` or `action` events (i.e. only legacy reasoning events),
`groupEventsByStep` returns exactly one StepGroup, with stepNumber 0 and an empty
actions list (there are no non-reasoning events, so the actions list vacuously
contains all of them). -/
theorem c3_no_marker_amended (es : List Event) (hne : es ≠ [])
    (hall : ∀ e ∈ es, e.type = EventType.reasoning) :
    ∃ g, groupEventsByStep es = [g] ∧ g.stepNumber = 0 ∧ g.actions = [] := by
  obtain ⟨e, rest, rfl⟩ : ∃ e rest, es = e :: rest := by
    cases es with
    | nil => exact absurd rfl hne
    | cons e rest => exact ⟨e, rest, rfl⟩
  have hinv : LegacyInv ((e :: rest).foldl processEvent initState) := by
    simp only [List.foldl_cons]
    exact legacyInv_foldl rest (processEvent initState e)
      (fun x hx => hall x (List.mem_cons_of_mem e hx))
      (legacyInv_first e (hall e (List.mem_cons_self e rest)))
  obtain ⟨-, g, hs, hn, ha⟩ := hinv
  refine ⟨g, ?_, hn, ha⟩
  rw [groupEventsByStep, hs]
  rfl

/-- Claim C3 amended, instantiated at a one-element legacy event list. -/
theorem c3_no_marker_amended_witness :
    ∃ g, groupEventsByStep [exLegacy] = [g] ∧ g.stepNumber = 0 ∧ g.actions = [] :=
  c3_no_marker_amended [exLegacy] (by decide) (by decide)

/-- Claim C4: for every input event list, the output of `groupEventsByStep` is
sorted ascending by `stepNumber`, and within each StepGroup the actions list is an
order-preserving selection (sublist) of the input event list consisting of `action`
events — actions are appended in arrival order and never re-sorted. -/
theorem c4_sorted_and_arrival_order (es : List Event) :
    List.Sorted stepLE (groupEventsByStep es) ∧
    ∀ g ∈ groupEventsByStep es,
      List.Sublist g.actions es ∧ ∀ e ∈ g.actions, e.type = EventType.action :=
  ⟨(groupEventsByStep_facts es).1, (groupEventsByStep_facts es).2.2⟩

/-- Claim C4, instantiated: step-2's action arrives before step-1's, the output is
sorted, and the group for step 1 holds exactly its own action as a sublist of the
input. -/
theorem c4_sorted_and_arrival_order_witness :
    List.Sorted stepLE (groupEventsByStep [exAction2, exAction1]) ∧
    List.Sublist (⟨1, none, [exAction1], "ta1", none⟩ : StepGroup).actions
      [exAction2, exAction1] := by
  have h := c4_sorted_and_arrival_order [exAction2, exAction1]
  exact ⟨h.1, (h.2 ⟨1, none, [exAction1], "ta1", none⟩ (by decide)).1⟩

/-- Claim C5: the step reconstructor is a pure function of its input — two calls on
the same list are equal, the empty input yields the empty output, and every event
appearing in an output group's actions is an element of the input list (the input
events are referenced, never modified or invented). -/
theorem c5_pure_deterministic :
    groupEventsByStep ([] : List Event) = [] ∧
    ∀ es : List Event, groupEventsByStep es = groupEventsByStep es ∧
      ∀ g ∈ groupEventsByStep es, ∀ e ∈ g.actions, e ∈ es := by
  refine ⟨rfl, fun es => ⟨rfl, fun g hg e he => ?_⟩⟩
  exact ((groupEventsByStep_facts es).2.2 g hg).1.subset he

/-- Claim C5, instantiated: the single grouped action of a one-action input is that
input event itself. -/
theorem c5_pure_deterministic_witness :
    groupEventsByStep ([] : List Event) = [] ∧ exAction1 ∈ [exAction1] :=
  ⟨c5_pure_deterministic.1,
    (c5_pure_deterministic.2 [exAction1]).2 ⟨1, none, [exAction1], "ta1", none⟩
      (by decide) exAction1 (by decide)⟩

/-- Claim C10: the output groups of `groupEventsByStep` carry pairwise-distinct
step numbers — the map is keyed by step number, so each number yields at most one
group. -/
theorem c10_distinct_step_numbers (es : List Event) :
    List.Pairwise (fun a b => a.stepNumber ≠ b.stepNumber) (groupEventsByStep es) :=
  (groupEventsByStep_facts es).2.1

/-- Claim C6 (counterexample): `fetchRun` applies every response with an
unconditional `setRun(await res.json())`.  In the trace below, two polls are
dispatched while the run is running; the later-dispatched poll's response
(`completed`) is applied first, then the earlier poll's stale response (`running`)
arrives and is applied — the observed status was `completed` and a subsequent
fetch update makes it `running` again. -/
theorem c6_status_monotonic_counterexample :
    traceStatus exTerminalTrace = some "completed" ∧
    traceStatus (exTerminalTrace ++
      [ClientAction.fetchReturn (FetchOutcome.success (mkRun "running"))]) =
      some "running" := by
  decide

/-- Claim C6 (amended): once the observed status is `completed` or `failed` AND no
fetch response is still in flight, the observed status never changes again: the
poll interval is torn down (no new fetch is ever issued), WebSocket messages only
append events, and the mount fetch has already run.  Only a fetch dispatched
before the terminal status was observed can still overwrite the status. -/
theorem c6_status_monotonic_amended (acts : List ClientAction) :
    ∀ s s2 : RunClient, s.mounted = true → s.pendingFetches = 0 →
      (observedStatus s = some "completed" ∨ observedStatus s = some "failed") →
      runActions s acts = some s2 → observedStatus s2 = observedStatus s := by
  induction acts with
  | nil =>
      intro s s2 _ _ _ h
      simp only [runActions] at h
      rw [← Option.some_inj.mp h]
  | cons a rest ih =>
      intro s s2 hm hp hs h
      simp only [runActions] at h
      cases a with
      | mountFetch => simp [stepClient, hm] at h
      | pollTick =>
          cases hrun : s.run with
          | none => simp [stepClient, hrun] at h
          | some r =>
              have hst : r.status = "completed" ∨ r.status = "failed" := by
                rcases hs with h1 | h1
                · left
                  simpa [observedStatus, hrun] using h1
                · right
                  simpa [observedStatus, hrun] using h1
              have hnr : ¬r.status = "running" := by
                rcases hst with h2 | h2 <;> simp [h2]
              simp [stepClient, hrun, hnr] at h
      | fetchReturn o => simp [stepClient, hp] at h
      | wsMessage e =>
          obtain ⟨run0, load0, red0, mnt0, pend0⟩ := s
          have h2 : runActions ⟨run0.map (fun r => { r with events := r.events ++ [e] }), load0, red0, mnt0, pend0⟩ rest = some s2 := h
          have h3 : observedStatus (⟨run0.map (fun r => { r with events := r.events ++ [e] }), load0, red0, mnt0, pend0⟩ : RunClient) = observedStatus ⟨run0, load0, red0, mnt0, pend0⟩ := by
            cases run0 <;> rfl
          exact (ih ⟨run0.map (fun r => { r with events := r.events ++ [e] }), load0, red0, mnt0, pend0⟩ s2 hm hp (by rw [h3]; exact hs) h2).trans h3
      | wsMalformed =>
          exact ih s s2 hm hp hs h

/-- Claim C6 amended, instantiated: from a hydrated-terminal state with no fetch in
flight, a WebSocket message leaves the observed status unchanged. -/
theorem c6_status_monotonic_amended_witness :
    observedStatus exTerminalClient2 = observedStatus exTerminalClient :=
  c6_status_monotonic_amended [ClientAction.wsMessage exLegacy] exTerminalClient
    exTerminalClient2 rfl rfl (Or.inl rfl) (by decide)

/-- Claim C7: for a terminal run, a step with a defined videoTimestamp gets the
external Laminar link whenever the run carries a truthy `laminar_trace_id` (never
the local video seek); the local seek is used exactly when the trace id is falsy
and `video_path` is truthy; with neither, no control is rendered; and while the
run's status is `running`, no control is rendered at all. -/
theorem c7_replay_selection (r : Run) (g : StepGroup) (envBase : Option String) (vt : ℚ)
    (hvt : g.videoTimestamp = some vt) :
    ((r.status = "completed" ∨ r.status = "failed") →
      (strTruthy r.laminar_trace_id = true →
        replayControl r g envBase =
          ReplayChoice.laminarLink
            (getLaminarUrl envBase (optStr r.laminar_trace_id) (some vt)) ∧
        ∀ t, replayControl r g envBase ≠ ReplayChoice.videoSeek t) ∧
      (strTruthy r.laminar_trace_id = false → strTruthy r.video_path = true →
        replayControl r g envBase = ReplayChoice.videoSeek vt) ∧
      (strTruthy r.laminar_trace_id = false → strTruthy r.video_path = false →
        replayControl r g envBase = ReplayChoice.noControl)) ∧
    (r.status = "running" → replayControl r g envBase = ReplayChoice.noControl) := by
  constructor
  · intro hterm
    refine ⟨fun hlam => ?_, fun hlam hvid => ?_, fun hlam hvid => ?_⟩
    · constructor
      · simp [replayControl, hvt, hterm, hlam]
      · intro t
        simp [replayControl, hvt, hterm, hlam]
    · simp [replayControl, hvt, hterm, hlam, hvid]
    · simp [replayControl, hvt, hterm, hlam, hvid]
  · intro hrun
    have h1 : ¬(r.status = "completed" ∨ r.status = "failed") := by
      rw [hrun]
      rintro (h | h) <;> simp at h
    simp [replayControl, hvt, h1]

/-- Claim C7, instantiated: a completed run with both a Laminar trace id and a local
video path yields the external link for a step with videoTimestamp 5. -/
theorem c7_replay_selection_witness :
    replayControl exRunBoth exGroupVT none =
      ReplayChoice.laminarLink
        (getLaminarUrl none (optStr exRunBoth.laminar_trace_id) (some 5)) :=
  (((c7_replay_selection exRunBoth exGroupVT none 5 rfl).1 (Or.inl rfl)).1 (by decide)).1

/-- Claim C8: `getLaminarUrl` with trace id "abc123" and timestamp 12.34 against the
base URL https://laminar.sh (both as the default when the environment variable is
unset and when it is set to that URL) returns exactly
"https://laminar.sh/shared/traces/abc123?t=12.3". -/
theorem c8_laminar_url_example :
    getLaminarUrl none "abc123" (some (mkRat 1234 100)) =
      "https://laminar.sh/shared/traces/abc123?t=12.3" ∧
    getLaminarUrl (some "https://laminar.sh") "abc123" (some (mkRat 1234 100)) =
      "https://laminar.sh/shared/traces/abc123?t=12.3" := by
  decide

/-- Claim C9: on the initial fetch (run not yet hydrated), a 401 outcome sets the
redirect target to the authentication entry point "/auth" and surfaces no run; any
other failure (non-2xx response or a thrown network error) only clears `loading`,
leaving the client with no run (the not-found view), no redirect, and no events —
`applyFetch` is total, so no outcome raises. -/
theorem c9_initial_fetch_errors :
    stepClient exMountedClient (ClientAction.fetchReturn FetchOutcome.unauthorized) =
      some ⟨none, false, some "/auth", true, 0⟩ ∧
    stepClient exMountedClient (ClientAction.fetchReturn FetchOutcome.httpFailure) =
      some ⟨none, false, none, true, 0⟩ ∧
    stepClient exMountedClient (ClientAction.fetchReturn FetchOutcome.networkFailure) =
      some ⟨none, false, none, true, 0⟩ := by
  decide

end Sentric
